import Mathlib

/-!
Verification of the disk-imaging and hashing core of `FTK_img.py`
(functions `hash_file`, `image_and_hash`, and the comparison /
conclusion logic of `main`), shallowly embedded in Lean.

Modelling conventions:
* a file's byte content is a `List Byte` (`Byte := Nat`);
* `f.read(chunk_size)` on a regular file yields the successive pieces
  produced by `chunks chunk_size content` (each read returns up to
  `chunk_size` bytes, and `b""` exactly at end of stream — for
  `chunk_size = 0`, Python's `read(0)` returns `b""` at once, which the
  `if not chunk: break` test treats as end of stream, so `chunks 0 l = []`);
* a `hashlib` object is a `DigestState`: `update` appends the chunk to the
  byte sequence fed so far, and `hexdigest()` is an arbitrary function
  `H : List Byte → D` of that sequence (all the code ever does with
  digests is compare them with `==`, hence the `DecidableEq D` parameter);
* `os.path.getsize` succeeding or raising is modelled by the booleans
  `sa` / `da` (source / destination size available): when it succeeds it
  returns the file's length, when it raises the code stores `None`;
* writing a chunk appends it to the destination file's content.
-/

abbrev Byte := Nat

/-- Helper for `chunks`, structurally recursive on a fuel bound for the
number of reads (with `0 < c` every read consumes at least one byte, so
the file length is always enough fuel). -/
def chunksGo (c : Nat) : Nat → List Byte → List (List Byte)
  | _, [] => []
  | 0, _ => []
  | fuel + 1, x :: xs => (x :: xs).take c :: chunksGo c fuel ((x :: xs).drop c)

/-- Successive results of `f.read(c)` over a file with content `l`,
stopping at the first empty read (the loop's `if not chunk: break`);
Python's `read(0)` returns `b""` at once, so `chunks 0 l = []`. -/
def chunks (c : Nat) (l : List Byte) : List (List Byte) :=
  if c = 0 then [] else chunksGo c l.length l

/-- Incremental state of one `hashlib` object: the byte sequence fed so far. -/
structure DigestState where
  fed : List Byte
deriving DecidableEq

/-- Model of `h.update(chunk)`. -/
def DigestState.update (s : DigestState) (chunk : List Byte) : DigestState :=
  ⟨s.fed ++ chunk⟩

/-- Model of `h.hexdigest()`: the digest function `H` applied to the bytes fed. -/
def DigestState.hexdigest {D : Type} (H : List Byte → D) (s : DigestState) : D :=
  H s.fed

/-- The `while True` loop of `hash_file`: feed each chunk to both digest
states and count the bytes read. -/
def hashLoop (m5 s1 : DigestState) (total : Nat) :
    List (List Byte) → DigestState × DigestState × Nat
  | [] => (m5, s1, total)
  | ch :: rest => hashLoop (m5.update ch) (s1.update ch) (total + ch.length) rest

/-- Model of `hash_file(path, chunk_size)`: chunked MD5/SHA1 over the
file content, returning the pair of hex digests. -/
def hash_file {D : Type} (H5 H1 : List Byte → D)
    (content : List Byte) (chunk_size : Nat) : D × D :=
  let r := hashLoop ⟨[]⟩ ⟨[]⟩ 0 (chunks chunk_size content)
  (r.1.hexdigest H5, r.2.1.hexdigest H1)

/-- Result record of `image_and_hash`: the four returned values plus the
destination file's content after the copy loop. -/
structure ImageResult (D : Type) where
  written : List Byte
  md5 : D
  sha1 : D
  source_size : Option Nat
  output_size : Option Nat
deriving DecidableEq

/-- The `while True` copy loop of `image_and_hash`: write each chunk to the
destination, feed it to both digest states, count the bytes. -/
def copyLoop (dst : List Byte) (m5 s1 : DigestState) (total : Nat) :
    List (List Byte) → List Byte × DigestState × DigestState × Nat
  | [] => (dst, m5, s1, total)
  | ch :: rest =>
      copyLoop (dst ++ ch) (m5.update ch) (s1.update ch) (total + ch.length) rest

/-- Model of `image_and_hash(source_path, output_path, chunk_size)`.
The destination is opened with `"wb"` (truncated to empty), the copy loop
runs, then the destination size is queried best-effort; `sa` / `da` say
whether the two `os.path.getsize` calls succeed. -/
def image_and_hash {D : Type} (H5 H1 : List Byte → D) (sa da : Bool)
    (content : List Byte) (chunk_size : Nat) : ImageResult D :=
  let source_size : Option Nat := if sa then some content.length else none
  let r := copyLoop [] ⟨[]⟩ ⟨[]⟩ 0 (chunks chunk_size content)
  let written := r.1
  let output_size : Option Nat := if da then some written.length else none
  ⟨written, r.2.1.hexdigest H5, r.2.2.1.hexdigest H1, source_size, output_size⟩

/-- Tri-state of the size comparison (`"YES"` / `"NO"` / `"UNKNOWN"`). -/
inductive TriState where
  | MATCH
  | MISMATCH
  | UNKNOWN
deriving DecidableEq

/-- The size comparison of `main`: `"YES"` when both sizes are known and
equal, `"NO"` when both known and unequal, `"UNKNOWN"` otherwise. -/
def sizeMatch (src dst : Option Nat) : TriState :=
  match src, dst with
  | some s, some d => if s = d then .MATCH else .MISMATCH
  | _, _ => .UNKNOWN

/-- The three conclusion strings of `main`. -/
inductive Conclusion where
  | SUCCESS
  | HASH_ONLY
  | WARNING
deriving DecidableEq

/-- The conclusion selection of `main`: SUCCESS when both hash matches hold
and the size comparison is `"YES"`; the weaker hash-only conclusion when
both hash matches hold otherwise; WARNING in every other case. -/
def conclusionOf (m5 s1 : Bool) (sm : TriState) : Conclusion :=
  if m5 && s1 && (sm = TriState.MATCH : Bool) then .SUCCESS
  else if m5 && s1 then .HASH_ONLY
  else .WARNING

/-- Everything `main` derives from one imaging-plus-verification run. -/
structure Outcome (D : Type) where
  md5_copy : D
  sha1_copy : D
  md5_verify : D
  sha1_verify : D
  source_size : Option Nat
  output_size : Option Nat
  md5_match : Bool
  sha1_match : Bool
  size_match : TriState
  conclusion : Conclusion
deriving DecidableEq

/-- The happy path of `main`: image-and-hash the source, let `tamper`
describe what happens to the destination file between the copy phase and
the verify phase (`id` when nothing touches it), re-hash the destination
with `hash_file`, and derive the matches, the size comparison and the
conclusion exactly as `main` does. -/
def run_main {D : Type} [DecidableEq D] (H5 H1 : List Byte → D) (sa da : Bool)
    (source : List Byte) (tamper : List Byte → List Byte)
    (chunk_size : Nat) : Outcome D :=
  let r := image_and_hash H5 H1 sa da source chunk_size
  let destAtVerify := tamper r.written
  let v := hash_file H5 H1 destAtVerify chunk_size
  let m5b : Bool := r.md5 = v.1
  let s1b : Bool := r.sha1 = v.2
  let sm := sizeMatch r.source_size r.output_size
  ⟨r.md5, r.sha1, v.1, v.2, r.source_size, r.output_size,
    m5b, s1b, sm, conclusionOf m5b s1b sm⟩

/-- Result of a whole `main` run: either a full outcome, or an abort in
which the copy-phase exception reached `main`'s handler; the abort carries
the destination file's content at the moment the exception propagated. -/
inductive RunResult (D : Type) where
  | ok (o : Outcome D)
  | aborted (destContent : List Byte)

/-- The copy loop of `image_and_hash` with an I/O fault injected: the
read/write cycle for chunk number `faultAt` (0-based, counted from `i`)
raises `IoError` instead of transferring the chunk; the error value
carries the destination content written so far, which nothing in the
code ever deletes or truncates afterwards. -/
def copyLoopF (faultAt : Option Nat) (i : Nat) (dst : List Byte)
    (m5 s1 : DigestState) (total : Nat) :
    List (List Byte) →
      Except (List Byte) (List Byte × DigestState × DigestState × Nat)
  | [] => .ok (dst, m5, s1, total)
  | ch :: rest =>
      if faultAt = some i then .error dst
      else copyLoopF faultAt (i + 1) (dst ++ ch) (m5.update ch)
        (s1.update ch) (total + ch.length) rest

/-- Model of a full `main` run in which an I/O fault hits the copy loop at
chunk number `faultAt`: the exception propagates out of `image_and_hash`
into `main`'s `except` handler, which only prints — no verify pass runs,
no outcome is derived, and the partially written destination is left
exactly as it was when the fault occurred. -/
def run_main_faulty {D : Type} [DecidableEq D] (H5 H1 : List Byte → D)
    (sa da : Bool) (source : List Byte) (chunk_size : Nat)
    (faultAt : Option Nat) : RunResult D :=
  match copyLoopF faultAt 0 [] ⟨[]⟩ ⟨[]⟩ 0 (chunks chunk_size source) with
  | .error dst => .aborted dst
  | .ok _ => .ok (run_main H5 H1 sa da source id chunk_size)

/-! Basic facts about `chunks` and the two loops. -/

theorem chunks_zero (l : List Byte) : chunks 0 l = [] := by
  rw [chunks]; simp

theorem chunks_nil (c : Nat) : chunks c [] = [] := by
  rw [chunks]
  rcases c with _ | c <;> simp [chunksGo]

theorem chunksGo_fuel (c : Nat) (hc : 0 < c) :
    ∀ (n m : Nat) (l : List Byte), l.length ≤ n → l.length ≤ m →
      chunksGo c n l = chunksGo c m l := by
  intro n
  induction n with
  | zero =>
      intro m l hn _
      have hl : l = [] := List.length_eq_zero.mp (Nat.le_zero.mp hn)
      subst hl
      rcases m with _ | m <;> simp [chunksGo]
  | succ n ih =>
      intro m l hn hm
      rcases l with _ | ⟨x, xs⟩
      · rcases m with _ | m <;> simp [chunksGo]
      · rcases m with _ | m
        · simp at hm
        · simp only [chunksGo]
          have hd : ((x :: xs).drop c).length ≤ n := by
            simp only [List.length_drop, List.length_cons] at *
            omega
          have hd' : ((x :: xs).drop c).length ≤ m := by
            simp only [List.length_drop, List.length_cons] at *
            omega
          rw [ih m ((x :: xs).drop c) hd hd']

theorem chunks_cons (c : Nat) (hc : c ≠ 0) (l : List Byte) (hl : l ≠ []) :
    chunks c l = l.take c :: chunks c (l.drop c) := by
  have hc' : 0 < c := Nat.pos_of_ne_zero hc
  rcases l with _ | ⟨x, xs⟩
  · exact absurd rfl hl
  · rw [chunks, chunks]
    simp only [hc, if_false, List.length_cons, chunksGo]
    have hd : ((x :: xs).drop c).length ≤ xs.length := by
      simp only [List.length_drop, List.length_cons]
      omega
    rw [chunksGo_fuel c hc' xs.length ((x :: xs).drop c).length ((x :: xs).drop c) hd le_rfl]

theorem flatten_chunks_aux (c : Nat) (hc : 0 < c) :
    ∀ (n : Nat) (l : List Byte), l.length ≤ n → (chunks c l).flatten = l
  | 0, l, h => by
    have hl : l = [] := List.length_eq_zero.mp (Nat.le_zero.mp h)
    subst hl; rw [chunks_nil]; rfl
  | n + 1, l, h => by
    by_cases hl : l = []
    · subst hl; rw [chunks_nil]; rfl
    · rw [chunks_cons c (Nat.pos_iff_ne_zero.mp hc) l hl]
      have hlen : (l.drop c).length ≤ n := by
        have h1 : 0 < l.length := List.length_pos.mpr hl
        simp only [List.length_drop]
        omega
      rw [List.flatten_cons, flatten_chunks_aux c hc n (l.drop c) hlen,
        List.take_append_drop]

theorem flatten_chunks (c : Nat) (hc : 0 < c) (l : List Byte) :
    (chunks c l).flatten = l :=
  flatten_chunks_aux c hc l.length l le_rfl

theorem copyLoop_spec (L : List (List Byte)) :
    ∀ (dst : List Byte) (m5 s1 : DigestState) (total : Nat),
      copyLoop dst m5 s1 total L =
        (dst ++ L.flatten, ⟨m5.fed ++ L.flatten⟩, ⟨s1.fed ++ L.flatten⟩,
          total + (L.map List.length).sum) := by
  induction L with
  | nil => intro dst m5 s1 total; simp [copyLoop]
  | cons ch rest ih =>
      intro dst m5 s1 total
      simp [copyLoop, ih, DigestState.update, List.append_assoc, Nat.add_assoc]

theorem hashLoop_spec (L : List (List Byte)) :
    ∀ (m5 s1 : DigestState) (total : Nat),
      hashLoop m5 s1 total L =
        (⟨m5.fed ++ L.flatten⟩, ⟨s1.fed ++ L.flatten⟩,
          total + (L.map List.length).sum) := by
  induction L with
  | nil => intro m5 s1 total; simp [hashLoop]
  | cons ch rest ih =>
      intro m5 s1 total
      simp [hashLoop, ih, DigestState.update, List.append_assoc, Nat.add_assoc]

theorem hash_file_eq {D : Type} (H5 H1 : List Byte → D)
    (content : List Byte) (c : Nat) :
    hash_file H5 H1 content c =
      (H5 (chunks c content).flatten, H1 (chunks c content).flatten) := by
  simp [hash_file, hashLoop_spec, DigestState.hexdigest]

theorem image_and_hash_eq {D : Type} (H5 H1 : List Byte → D) (sa da : Bool)
    (content : List Byte) (c : Nat) :
    image_and_hash H5 H1 sa da content c =
      ⟨(chunks c content).flatten,
        H5 (chunks c content).flatten, H1 (chunks c content).flatten,
        if sa then some content.length else none,
        if da then some (chunks c content).flatten.length else none⟩ := by
  simp [image_and_hash, copyLoop_spec, DigestState.hexdigest]

theorem flatten_chunks_flatten (c : Nat) (l : List Byte) :
    (chunks c ((chunks c l).flatten)).flatten = (chunks c l).flatten := by
  rcases Nat.eq_zero_or_pos c with h | h
  · subst h; simp [chunks_zero]
  · rw [flatten_chunks c h]

/-- C1: for every source content and positive chunk size, when
`image_and_hash` completes without error the destination file's byte
content equals the source's byte content, and the returned MD5 and SHA1
digests are the digest functions applied to exactly the bytes written to
the destination (the same chunk stream fed to `dst.write` and to the
hash updates), not to a separate re-read of the source. -/
theorem C1_exact_copy {D : Type} (H5 H1 : List Byte → D) (sa da : Bool)
    (content : List Byte) (c : Nat) (hc : 0 < c) :
    (image_and_hash H5 H1 sa da content c).written = content ∧
    (image_and_hash H5 H1 sa da content c).md5 =
      H5 (image_and_hash H5 H1 sa da content c).written ∧
    (image_and_hash H5 H1 sa da content c).sha1 =
      H1 (image_and_hash H5 H1 sa da content c).written := by
  simp [image_and_hash_eq, flatten_chunks c hc]

/-- Witness for C1 at a concrete input. -/
theorem C1_exact_copy_witness :
    0 < 2 ∧
    ((image_and_hash (fun l : List Byte => l) List.reverse true true
        [5, 6, 7] 2).written = [5, 6, 7] ∧
      (image_and_hash (fun l : List Byte => l) List.reverse true true
        [5, 6, 7] 2).md5 =
        (image_and_hash (fun l : List Byte => l) List.reverse true true
          [5, 6, 7] 2).written ∧
      (image_and_hash (fun l : List Byte => l) List.reverse true true
        [5, 6, 7] 2).sha1 =
        List.reverse ((image_and_hash (fun l : List Byte => l) List.reverse
          true true [5, 6, 7] 2).written)) :=
  ⟨by decide,
    C1_exact_copy (fun l : List Byte => l) List.reverse true true
      [5, 6, 7] 2 (by decide)⟩

/-- C2: the digest pair produced during the copy pass equals the pair
recomputed by the independent verify pass `hash_file` on the destination
content (which `image_and_hash` produced from the unmodified source), and
running `hash_file` twice on unmodified content yields identical pairs. -/
theorem C2_copy_verify_agree {D : Type} (H5 H1 : List Byte → D)
    (sa da : Bool) (content : List Byte) (c : Nat) :
    ((image_and_hash H5 H1 sa da content c).md5,
      (image_and_hash H5 H1 sa da content c).sha1) =
      hash_file H5 H1 (image_and_hash H5 H1 sa da content c).written c ∧
    hash_file H5 H1 content c = hash_file H5 H1 content c := by
  refine ⟨?_, rfl⟩
  simp [image_and_hash_eq, hash_file_eq, flatten_chunks_flatten]

/-- C3: the size comparison is tri-state: MATCH exactly when both sizes
are known and equal, MISMATCH exactly when both are known and unequal,
UNKNOWN exactly when either size is unknown. -/
theorem C3_sizeMatch_tristate (s d : Option Nat) :
    (sizeMatch s d = TriState.MATCH ↔ (∃ a, s = some a ∧ d = some a)) ∧
    (sizeMatch s d = TriState.MISMATCH ↔
      (∃ a b, s = some a ∧ d = some b ∧ a ≠ b)) ∧
    (sizeMatch s d = TriState.UNKNOWN ↔ (s = none ∨ d = none)) := by
  rcases s with _ | a <;> rcases d with _ | b
  · simp [sizeMatch]
  · simp [sizeMatch]
  · simp [sizeMatch]
  · rcases eq_or_ne a b with hab | hab
    · subst hab; simp [sizeMatch]
    · simp [sizeMatch, hab, Ne.symm hab]

/-- C6: the final digest pair of chunked incremental hashing is
independent of the (positive) chunk size. -/
theorem C6_chunk_size_independence {D : Type} (H5 H1 : List Byte → D)
    (content : List Byte) (c1 c2 : Nat) (h1 : 0 < c1) (h2 : 0 < c2) :
    hash_file H5 H1 content c1 = hash_file H5 H1 content c2 := by
  simp [hash_file_eq, flatten_chunks c1 h1, flatten_chunks c2 h2]

/-- Witness for C6 at a concrete input (chunk sizes 2 and 5, a 7-byte
content that neither divides evenly). -/
theorem C6_chunk_size_independence_witness :
    0 < 2 ∧ 0 < 5 ∧
    hash_file (fun l : List Byte => l) List.reverse
        [1, 2, 3, 4, 5, 6, 7] 2 =
      hash_file (fun l : List Byte => l) List.reverse
        [1, 2, 3, 4, 5, 6, 7] 5 :=
  ⟨by decide, by decide,
    C6_chunk_size_independence (fun l : List Byte => l) List.reverse
      [1, 2, 3, 4, 5, 6, 7] 2 5 (by decide) (by decide)⟩

/-- C4 (amended): SUCCESS exactly when size_match is MATCH and both digest
matches hold; the weaker hash-only conclusion exactly when both digest
matches hold and size_match is not MATCH (UNKNOWN or MISMATCH); any digest
mismatch yields the hard-failure conclusion regardless of size. -/
theorem C4_conclusion_policy (m5 s1 : Bool) (sm : TriState) :
    (conclusionOf m5 s1 sm = Conclusion.SUCCESS ↔
      m5 = true ∧ s1 = true ∧ sm = TriState.MATCH) ∧
    (conclusionOf m5 s1 sm = Conclusion.HASH_ONLY ↔
      m5 = true ∧ s1 = true ∧ sm ≠ TriState.MATCH) ∧
    (conclusionOf m5 s1 sm = Conclusion.WARNING ↔
      (m5 = false ∨ s1 = false)) := by
  rcases sm <;> rcases m5 <;> rcases s1 <;> decide

/-- C4 counterexample: with both digest matches holding and the two sizes
known but unequal, the code selects the weaker hash-only conclusion even
though size_match is MISMATCH, not UNKNOWN — refuting the claim that the
weaker conclusion is produced only when size_match is UNKNOWN. -/
theorem C4_hash_only_on_mismatch :
    conclusionOf true true TriState.MISMATCH = Conclusion.HASH_ONLY ∧
    TriState.MISMATCH ≠ TriState.UNKNOWN := by decide

theorem dropLast_ne_self (l : List Byte) (hl : l ≠ []) : l.dropLast ≠ l := by
  intro h
  have hpos : 0 < l.length := List.length_pos.mpr hl
  have hlen := congrArg List.length h
  rw [List.length_dropLast] at hlen
  omega

/-- C5 (amended): if the destination is truncated by one byte after the
copy phase but before the verify phase (nonempty content, positive chunk
size, injective digest functions, both size queries succeeding), then
digest_match for both configured algorithms is MISMATCH; size_match,
however, is MATCH rather than MISMATCH, because both sizes are recorded
inside `image_and_hash`, before the truncation window. -/
theorem C5_truncation_detected {D : Type} [DecidableEq D]
    (H5 H1 : List Byte → D)
    (h5 : Function.Injective H5) (h1 : Function.Injective H1)
    (content : List Byte) (hne : content ≠ []) (c : Nat) (hc : 0 < c) :
    (run_main H5 H1 true true content List.dropLast c).md5_match = false ∧
    (run_main H5 H1 true true content List.dropLast c).sha1_match = false ∧
    (run_main H5 H1 true true content List.dropLast c).size_match =
      TriState.MATCH := by
  have hwr : (chunks c content).flatten = content := flatten_chunks c hc content
  have hdl : (chunks c content.dropLast).flatten = content.dropLast :=
    flatten_chunks c hc content.dropLast
  have hne5 : ¬ H5 content = H5 content.dropLast := fun h =>
    dropLast_ne_self content hne (h5 h).symm
  have hne1 : ¬ H1 content = H1 content.dropLast := fun h =>
    dropLast_ne_self content hne (h1 h).symm
  simp [run_main, image_and_hash_eq, hash_file_eq, hwr, hdl, sizeMatch,
    hne5, hne1]

/-- Witness for the amended C5 at a concrete input. -/
theorem C5_truncation_detected_witness :
    Function.Injective (fun l : List Byte => l) ∧
    ([0, 1] : List Byte) ≠ [] ∧ 0 < 1 ∧
    ((run_main (fun l : List Byte => l) (fun l : List Byte => l) true true
        [0, 1] List.dropLast 1).md5_match = false ∧
      (run_main (fun l : List Byte => l) (fun l : List Byte => l) true true
        [0, 1] List.dropLast 1).sha1_match = false ∧
      (run_main (fun l : List Byte => l) (fun l : List Byte => l) true true
        [0, 1] List.dropLast 1).size_match = TriState.MATCH) :=
  ⟨fun _ _ h => h, by decide, by decide,
    C5_truncation_detected (fun l : List Byte => l) (fun l : List Byte => l)
      (fun _ _ h => h) (fun _ _ h => h) [0, 1] (by decide) 1 (by decide)⟩

/-- C5 counterexample: in the one-byte-truncation scenario the claim as
stated requires size_match = MISMATCH, but the code reports MATCH: the
destination size was queried inside `image_and_hash`, before the
truncation, so it still equals the source size. (Both digest matches are
indeed MISMATCH.) -/
theorem C5_size_recorded_before_tamper :
    (run_main (fun l : List Byte => l) (fun l : List Byte => l) true true
        [0, 1] List.dropLast 1).md5_match = false ∧
    (run_main (fun l : List Byte => l) (fun l : List Byte => l) true true
        [0, 1] List.dropLast 1).sha1_match = false ∧
    (run_main (fun l : List Byte => l) (fun l : List Byte => l) true true
        [0, 1] List.dropLast 1).size_match = TriState.MATCH ∧
    TriState.MATCH ≠ TriState.MISMATCH := by decide

/-- C8: a failing size query is non-fatal: the corresponding field of the
size record is `none`, the copy phase still writes the full destination,
the verify phase still computes its digests, and size_match is reported
as UNKNOWN. -/
theorem C8_size_unavailable_nonfatal {D : Type} [DecidableEq D]
    (H5 H1 : List Byte → D) (sa da : Bool)
    (h : sa = false ∨ da = false)
    (content : List Byte) (c : Nat) (hc : 0 < c) :
    (sa = false →
      (run_main H5 H1 sa da content id c).source_size = none) ∧
    (da = false →
      (run_main H5 H1 sa da content id c).output_size = none) ∧
    (image_and_hash H5 H1 sa da content c).written = content ∧
    (run_main H5 H1 sa da content id c).md5_verify = H5 content ∧
    (run_main H5 H1 sa da content id c).sha1_verify = H1 content ∧
    (run_main H5 H1 sa da content id c).size_match = TriState.UNKNOWN := by
  have hwr : (chunks c content).flatten = content := flatten_chunks c hc content
  rcases h with h | h <;> subst h
  · cases da <;>
      simp [run_main, image_and_hash_eq, hash_file_eq, hwr, sizeMatch]
  · cases sa <;>
      simp [run_main, image_and_hash_eq, hash_file_eq, hwr, sizeMatch]

/-- Witness for C8 at a concrete input (source size query fails,
destination size query succeeds). -/
theorem C8_size_unavailable_nonfatal_witness :
    (false = false ∨ true = false) ∧ 0 < 2 ∧
    ((false = false →
        (run_main (fun l : List Byte => l) List.reverse false true
          [3, 4, 5] id 2).source_size = none) ∧
      (true = false →
        (run_main (fun l : List Byte => l) List.reverse false true
          [3, 4, 5] id 2).output_size = none) ∧
      (image_and_hash (fun l : List Byte => l) List.reverse false true
        [3, 4, 5] 2).written = [3, 4, 5] ∧
      (run_main (fun l : List Byte => l) List.reverse false true
        [3, 4, 5] id 2).md5_verify = [3, 4, 5] ∧
      (run_main (fun l : List Byte => l) List.reverse false true
        [3, 4, 5] id 2).sha1_verify = List.reverse [3, 4, 5] ∧
      (run_main (fun l : List Byte => l) List.reverse false true
        [3, 4, 5] id 2).size_match = TriState.UNKNOWN) :=
  ⟨Or.inl rfl, by decide,
    C8_size_unavailable_nonfatal (fun l : List Byte => l) List.reverse
      false true (Or.inl rfl) [3, 4, 5] 2 (by decide)⟩

/-- C10: for an empty source the operation succeeds end to end: the read
loop sees end-of-stream at once (no chunks), the destination is created
with zero bytes, copy-phase and verify-phase digests both equal the digest
of the empty byte string, both digest matches hold, size_match is MATCH,
and the conclusion is SUCCESS. -/
theorem C10_empty_source {D : Type} [DecidableEq D]
    (H5 H1 : List Byte → D) (c : Nat) :
    chunks c [] = [] ∧
    (image_and_hash H5 H1 true true [] c).written = [] ∧
    (image_and_hash H5 H1 true true [] c).output_size = some 0 ∧
    (run_main H5 H1 true true [] id c).md5_copy = H5 [] ∧
    (run_main H5 H1 true true [] id c).sha1_copy = H1 [] ∧
    (run_main H5 H1 true true [] id c).md5_verify = H5 [] ∧
    (run_main H5 H1 true true [] id c).sha1_verify = H1 [] ∧
    (run_main H5 H1 true true [] id c).md5_match = true ∧
    (run_main H5 H1 true true [] id c).sha1_match = true ∧
    (run_main H5 H1 true true [] id c).size_match = TriState.MATCH ∧
    (run_main H5 H1 true true [] id c).conclusion = Conclusion.SUCCESS := by
  simp [run_main, image_and_hash_eq, hash_file_eq, chunks_nil, sizeMatch,
    conclusionOf]

theorem chunks_replicate_append (c : Nat) (hc : 0 < c) (b : Byte)
    (l2 : List Byte) :
    chunks c (List.replicate c b ++ l2) =
      List.replicate c b :: chunks c l2 := by
  have hne : List.replicate c b ++ l2 ≠ [] := by
    intro h
    have hlen := congrArg List.length h
    simp only [List.length_append, List.length_replicate,
      List.length_nil] at hlen
    omega
  rw [chunks_cons c (Nat.pos_iff_ne_zero.mp hc) _ hne]
  have hl : (List.replicate c b).length = c := List.length_replicate c b
  congr 1
  · exact List.take_left' hl
  · rw [List.drop_left' hl]

theorem chunks_replicate_exact (c : Nat) (hc : 0 < c) (b : Byte) :
    chunks c (List.replicate c b) = [List.replicate c b] := by
  have h := chunks_replicate_append c hc b []
  rw [List.append_nil] at h
  rw [h, chunks_nil]

theorem chunks_replicate_three (c : Nat) (hc : 0 < c) (b : Byte) :
    chunks c (List.replicate (3 * c) b) =
      [List.replicate c b, List.replicate c b, List.replicate c b] := by
  have h3 : 3 * c = c + (c + c) := by ring
  rw [h3, List.replicate_add, chunks_replicate_append c hc,
    List.replicate_add, chunks_replicate_append c hc,
    chunks_replicate_exact c hc]

/-- C7: for a source of 3 MiB of the byte `0xAB` with a 1 MiB chunk size,
the copy loop performs exactly 3 chunk transfers, the destination holds
the full 3145728 source bytes, copy-phase and verify-phase digests are
equal for both algorithms, size_match is MATCH, both digest matches hold,
and the conclusion is SUCCESS. -/
theorem C7_three_mib_scenario {D : Type} [DecidableEq D]
    (H5 H1 : List Byte → D) :
    (chunks 1048576 (List.replicate 3145728 171)).length = 3 ∧
    (image_and_hash H5 H1 true true (List.replicate 3145728 171)
        1048576).written = List.replicate 3145728 171 ∧
    (image_and_hash H5 H1 true true (List.replicate 3145728 171)
        1048576).output_size = some 3145728 ∧
    (run_main H5 H1 true true (List.replicate 3145728 171) id
        1048576).md5_verify =
      (run_main H5 H1 true true (List.replicate 3145728 171) id
        1048576).md5_copy ∧
    (run_main H5 H1 true true (List.replicate 3145728 171) id
        1048576).sha1_verify =
      (run_main H5 H1 true true (List.replicate 3145728 171) id
        1048576).sha1_copy ∧
    (run_main H5 H1 true true (List.replicate 3145728 171) id
        1048576).md5_match = true ∧
    (run_main H5 H1 true true (List.replicate 3145728 171) id
        1048576).sha1_match = true ∧
    (run_main H5 H1 true true (List.replicate 3145728 171) id
        1048576).size_match = TriState.MATCH ∧
    (run_main H5 H1 true true (List.replicate 3145728 171) id
        1048576).conclusion = Conclusion.SUCCESS := by
  have hc : 0 < 1048576 := by norm_num
  have h3 : (3145728 : Nat) = 3 * 1048576 := by norm_num
  have hch : chunks 1048576 (List.replicate 3145728 171) =
      [List.replicate 1048576 171, List.replicate 1048576 171,
        List.replicate 1048576 171] := by
    rw [h3, chunks_replicate_three 1048576 hc 171]
  have hwr : (chunks 1048576 (List.replicate 3145728 171)).flatten =
      List.replicate 3145728 171 :=
    flatten_chunks 1048576 hc (List.replicate 3145728 171)
  refine ⟨by rw [hch]; rfl, ?_⟩
  simp only [run_main, image_and_hash_eq, hash_file_eq, hwr,
    flatten_chunks_flatten, id_eq, List.length_replicate]
  simp only [sizeMatch, if_true, decide_True, eq_self_iff_true, and_self,
    and_true, true_and, conclusionOf, Bool.and_self, Bool.and_true]

theorem copyLoopF_fault (L : List (List Byte)) :
    ∀ (i k : Nat) (dst : List Byte) (m5 s1 : DigestState) (t : Nat),
      k < L.length →
      copyLoopF (some (i + k)) i dst m5 s1 t L =
        .error (dst ++ (L.take k).flatten) := by
  induction L with
  | nil => intro i k dst m5 s1 t hk; simp at hk
  | cons ch rest ih =>
      intro i k dst m5 s1 t hk
      rcases k with _ | k
      · simp [copyLoopF]
      · have hne : ¬ (some (i + (k + 1)) = some i) := by
          simp only [Option.some.injEq]
          omega
        simp only [copyLoopF, hne, if_false]
        have harr : i + (k + 1) = (i + 1) + k := by omega
        have hk' : k < rest.length := by
          simp only [List.length_cons] at hk
          omega
        rw [harr, ih (i + 1) k (dst ++ ch) (m5.update ch) (s1.update ch)
          (t + ch.length) hk']
        simp [List.append_assoc]

/-- C9: an I/O fault mid-stream during the copy phase aborts the whole
operation — no verify pass runs and no outcome is produced — and the
partially written destination is left in place: it holds exactly the
chunks completed before the fault, neither deleted nor truncated nor
otherwise modified by the error-handling path. -/
theorem C9_fault_leaves_partial_artifact {D : Type} [DecidableEq D]
    (H5 H1 : List Byte → D) (sa da : Bool) (source : List Byte)
    (c k : Nat) (hk : k < (chunks c source).length) :
    run_main_faulty H5 H1 sa da source c (some k) =
      RunResult.aborted (((chunks c source).take k).flatten) := by
  unfold run_main_faulty
  have h0 : (some k : Option Nat) = some (0 + k) := by simp
  rw [h0, copyLoopF_fault (chunks c source) 0 k [] ⟨[]⟩ ⟨[]⟩ 0 hk]
  simp

/-- Witness for C9 at a concrete input: 4 one-byte chunks, fault at the
third (index 2) — the destination keeps exactly the first two bytes. -/
theorem C9_fault_leaves_partial_artifact_witness :
    2 < (chunks 1 [7, 8, 9, 10]).length ∧
    run_main_faulty (fun l : List Byte => l) List.reverse true true
        [7, 8, 9, 10] 1 (some 2) =
      RunResult.aborted (((chunks 1 [7, 8, 9, 10]).take 2).flatten) :=
  ⟨by decide,
    C9_fault_leaves_partial_artifact (fun l : List Byte => l) List.reverse
      true true [7, 8, 9, 10] 1 2 (by decide)⟩
